import Mathlib

/-!
Shallow embedding of the rzstd repository (src/main.rs, src/progress.rs):
a concurrent zstd-decompressing grep. Pure per-file control flow, the
line-search sink, the progress-instrumented reader and the progress
aggregator loop are translated into executable Lean definitions, and the
specification claims are settled as theorems about them.
-/

namespace Rzstd

/-! ## Line Search Sink (closure passed to Searcher::search_reader, main.rs 155-172)

Lines are modelled as lists of characters.  Rust str::replace replaces every
non-overlapping occurrence of the pattern, scanning left to right; with an
empty pattern it inserts the replacement before every character and at the
end.  replaceAll mirrors that semantics. -/

/-- Embedding of Rust str::replace on character lists: replace every
non-overlapping occurrence of pat by repl, scanning left to right. -/
def replaceAll (pat repl : List Char) : List Char → List Char
  | [] => if pat.isEmpty then repl else []
  | c :: rest =>
    if pat.isEmpty then
      repl ++ c :: replaceAll pat repl rest
    else if pat.isPrefixOf (c :: rest) then
      repl ++ replaceAll pat repl ((c :: rest).drop pat.length)
    else
      c :: replaceAll pat repl rest
termination_by s => s.length
decreasing_by
  all_goals
    first
      | (simp; done)
      | (rename_i hne _hpre
         simp [List.isEmpty_iff] at hne
         have hlen : 0 < pat.length := List.length_pos.mpr hne
         simp
         omega)

/-- ANSI start marker produced by colored::Colorize::red. -/
def hlStart : List Char := "\x1b[31m".toList

/-- ANSI reset marker produced by colored::Colorize::red. -/
def hlStop : List Char := "\x1b[0m".toList

/-- The highlighted rendering of a matched substring (the red() wrap). -/
def hlWrap (s : List Char) : List Char := hlStart ++ s ++ hlStop

/-- Result type of the opaque matcher's find on one line: an error, no
match, or the byte span (start, stop) of the first match. -/
abbrev FindResult := Except Unit (Option (Nat × Nat))

/-- The matched substring of a line for span (s, e): line[s..e]. -/
def spanSlice (line : List Char) (s e : Nat) : List Char :=
  (line.drop s).take (e - s)

/-- Embedding of the UTF8 sink closure (main.rs 155-172): given the
matcher's find result on one line, return the lines printed to stdout and
the Result<bool> the closure returns to the searcher.  A find error or no
match prints nothing and continues; a match prints the line with every
occurrence of the matched text replaced by its highlighted rendering. -/
def sinkLine (find : List Char → FindResult) (line : List Char) :
    List (List Char) × Except Unit Bool :=
  match find line with
  | .error _ => ([], .ok true)
  | .ok none => ([], .ok true)
  | .ok (some (s, e)) =>
    let matched := spanSlice line s e
    ([replaceAll matched (hlWrap matched) line], .ok true)

/-- Driver for the searcher's per-line loop: feed lines to the sink in
order, stopping early when the sink signals stop (Ok false) or errors. -/
def runSearch (find : List Char → FindResult) :
    List (List Char) → List (List Char) × Except Unit Unit
  | [] => ([], .ok ())
  | l :: rest =>
    match sinkLine find l with
    | (out, .ok true) =>
      let r := runSearch find rest
      (out ++ r.1, r.2)
    | (out, .ok false) => (out, .ok ())
    | (out, .error e) => (out, .error e)

/-- The specification's rendering of a highlighted line: markers inserted
around exactly the one matched byte span, all bytes outside the span
unchanged. -/
def spliceHighlight (line : List Char) (s e : Nat) : List Char :=
  line.take s ++ hlWrap (spanSlice line s e) ++ line.drop e

/-! ## Progress-Instrumented Source (progress.rs) -/

/-- State of the Progress reader: the internal running counter. -/
structure Progress where
  bytes_read : Nat
deriving DecidableEq, Repr

/-- Progress::new initializes the counter to zero. -/
def Progress.new : Progress := ⟨0⟩

/-- Embedding of Progress::read (progress.rs 21-31): innerRes is what the
wrapped reader returned, pubOk is whether the channel send would succeed.
Returns the new state, the list of values published on the channel (the
send is attempted whether or not it succeeds, and its result is ignored),
and the io::Result returned to the caller. -/
def Progress.read (p : Progress) (innerRes : Except Unit Nat) (pubOk : Bool) :
    Progress × List Nat × Except Unit Nat :=
  match innerRes with
  | .ok n =>
    let _ := pubOk
    (⟨p.bytes_read + n⟩, [p.bytes_read + n], .ok n)
  | .error e => (p, [], .error e)

/-- Run a sequence of reads through one Progress value, collecting every
value published on the progress channel. -/
def Progress.runReads (p : Progress) :
    List (Except Unit Nat × Bool) → Progress × List Nat
  | [] => (p, [])
  | (r, b) :: rest =>
    let step := p.read r b
    let tail := Progress.runReads step.1 rest
    (tail.1, step.2.1 ++ tail.2)

/-! ## Per-File Task (process_file, main.rs 102-183)

The file system and the external collaborators are modelled by their
observable answers: whether File::open succeeds, the metadata the code
queries (length, is_dir, is_symlink), whether Decoder::new and
RegexMatcher::new succeed, the sizes of the compressed reads the decoder
performs during the search, the decompressed lines fed to the sink, and
whether search_reader itself returns Ok. -/

/-- The observable properties of one path argument.  openOk, len and
isDir describe the handle File::open yields: open follows symbolic links,
so they are properties of the resolved target.  pathIsSymlink records
whether the command-line path itself is a symbolic link; the code never
inspects the path (no symlink_metadata call), so process_file cannot
depend on it. -/
structure FileDesc where
  openOk : Bool
  len : Nat
  isDir : Bool
  pathIsSymlink : Bool

/-- What file.metadata()?.file_type().is_symlink() returns at
main.rs 127: File::metadata is an fstat of the handle, and File::open
produced that handle by resolving the path (following any symbolic
link), so the handle never refers to a symlink and the flag is false for
every file — the branch behind it is dead code. -/
def metadataIsSymlink (_f : FileDesc) : Bool := false

/-- Answers of the external collaborators during one process_file run. -/
structure RunEnv where
  decoderOk : Bool
  regexOk : Bool
  reads : List Nat
  lines : List (List Char)
  find : List Char → FindResult
  searchOk : Bool

/-- Events observable on the two channels and at the collaborator
boundaries, in the order process_file produces them. -/
inductive Ev where
  | totalSent (n : Nat)
  | decoderCreated
  | regexCompiled
  | progressSent (n : Nat)
  | searched
deriving DecidableEq, Repr

/-- The error outcomes of process_file, one per early-return site. -/
inductive PfErr where
  | openError
  | dirError
  | symlinkError
  | decoderError
  | patternError
  | searchError
deriving DecidableEq, Repr

/-- Cumulative progress values published while the decoder pulls the given
compressed chunk sizes through the Progress reader: running prefix sums. -/
def progressEvents (acc : Nat) : List Nat → List Ev
  | [] => []
  | n :: rest => .progressSent (acc + n) :: progressEvents (acc + n) rest

/-- Embedding of process_file (main.rs 102-183).  Returns the event trace,
the lines printed to stdout, and the Result.  Control flow follows the
source exactly: open, empty-file early return, total announcement,
directory check, symlink check, Progress wrap, decoder construction,
regex compilation, search. -/
def process_file (f : FileDesc) (env : RunEnv) :
    List Ev × List (List Char) × Except PfErr Unit :=
  if !f.openOk then
    ([], [], .error .openError)
  else if f.len = 0 then
    ([], [], .ok ())
  else
    let tr0 := [Ev.totalSent f.len]
    if f.isDir then
      (tr0, [], .error .dirError)
    else if metadataIsSymlink f then
      (tr0, [], .error .symlinkError)
    else if !env.decoderOk then
      (tr0, [], .error .decoderError)
    else if !env.regexOk then
      (tr0 ++ [Ev.decoderCreated], [], .error .patternError)
    else
      let searchTrace := progressEvents 0 env.reads ++ [Ev.searched]
      let out := runSearch env.find env.lines
      (tr0 ++ [Ev.decoderCreated, Ev.regexCompiled] ++ searchTrace,
       out.1,
       if env.searchOk then .ok () else .error .searchError)

/-- The values carried by totalSent events of a trace. -/
def totalsOf (tr : List Ev) : List Nat :=
  tr.filterMap fun e =>
    match e with
    | .totalSent n => some n
    | _ => none

/-- The values carried by progressSent events of a trace. -/
def progressOf (tr : List Ev) : List Nat :=
  tr.filterMap fun e =>
    match e with
    | .progressSent n => some n
    | _ => none

/-! ## Progress Aggregator (main.rs 60-89) -/

/-- What one aggregator iteration does after draining the channels:
silently retry (total still zero), print an intermediate percentage with
the given bytes_read and total operands, or print the 100% line and
terminate. -/
inductive AggOut where
  | silent
  | reportPercent (br total : Nat)
  | done
deriving DecidableEq, Repr

/-- The percentage the intermediate branch computes (main.rs 85), in exact
arithmetic: bytes_read / total * 100. -/
def percent (br total : Nat) : ℚ := (br : ℚ) / (total : ℚ) * 100

/-- The numeral the intermediate branch prints (main.rs 86): the {:.2}
format renders the percentage rounded to the nearest hundredth, so the
displayed number is round(percent * 100) / 100.  Modelled over the exact
ratio; the f64 evaluation of the quotient differs from the exact one by
far less than the half-hundredth that decides the rounding at the inputs
considered here. -/
def displayedPercent (br total : Nat) : ℚ :=
  ((round (percent br total * 100) : ℤ) : ℚ) / 100

/-- One iteration of the aggregator loop (main.rs 64-88).  State is
(bytes_read, total); totals and readsRecv are the values obtained from the
try_recv drains of the total and progress channels this iteration. -/
def aggStep (st : Nat × Nat) (totals readsRecv : List Nat) :
    (Nat × Nat) × AggOut :=
  let total := st.2 + totals.sum
  let br := st.1 + readsRecv.sum
  if total = 0 then ((br, total), .silent)
  else if total ≤ br then ((br, total), .done)
  else ((br, total), .reportPercent br total)

/-- Run the aggregator over a finite schedule of drain results, collecting
the outputs; the loop body stops at the iteration that prints done. -/
def aggRun (st : Nat × Nat) : List (List Nat × List Nat) → List AggOut
  | [] => []
  | (t, r) :: rest =>
    let step := aggStep st t r
    step.2 :: (if step.2 = .done then [] else aggRun step.1 rest)

/-! ## Orchestrator argument handling (main.rs 21-30) -/

/-- What main does with its argument vector (argv including the program
name): print the usage message and exit 1, or run with the given pattern
and file list. -/
inductive MainAct where
  | usage
  | run (pattern : String) (files : List String)
deriving DecidableEq, Repr

/-- Embedding of the argument check (main.rs 21-30): usage-exit exactly
when args.len() < 2; otherwise the pattern is args[1] and the files are
args[2..]. -/
def mainDispatch (args : List String) : MainAct :=
  if args.length < 2 then .usage
  else .run (args.getD 1 "") (args.drop 2)

/-! ## Concrete collaborator instances used for evaluation -/

/-- A benign environment: decoder and regex succeed, two compressed reads,
no decompressed lines. -/
def envA : RunEnv := ⟨true, true, [2, 3], [], fun _ => .ok none, true⟩

/-- An environment whose regex pattern fails to compile. -/
def envNoRegex : RunEnv := ⟨true, false, [], [], fun _ => .ok none, true⟩

/-- A matcher find that always reports the span (0, 2). -/
def findSpan02 : List Char → FindResult := fun _ => .ok (some (0, 2))

/-- A matcher find that always reports the span (1, 3). -/
def findSpan13 : List Char → FindResult := fun _ => .ok (some (1, 3))

/-- A matcher find that always fails with a match error. -/
def findErr : List Char → FindResult := fun _ => .error ()

end Rzstd

namespace Rzstd

/-! ## Helper lemmas -/

/-- progressEvents never contains a totalSent event. -/
theorem totalsOf_progressEvents (acc : Nat) (rs : List Nat) :
    totalsOf (progressEvents acc rs) = [] := by
  induction rs generalizing acc with
  | nil => rfl
  | cons n rest ih =>
    simp only [progressEvents, totalsOf, List.filterMap_cons]
    exact ih (acc + n)

/-- Each aggregator iteration can only grow the running total sum. -/
theorem aggStep_total_mono (st : Nat × Nat) (t r : List Nat) :
    st.2 ≤ ((aggStep st t r).1).2 := by
  simp only [aggStep]
  split_ifs <;> simp

/-- If the running total is zero and an iteration drains no totals, the
iteration is silent and the total stays zero. -/
theorem aggStep_no_total (st : Nat × Nat) (hst : st.2 = 0) (r : List Nat) :
    aggStep st [] r = ((st.1 + r.sum, 0), .silent) := by
  simp [aggStep, hst]

/-- If no iteration ever drains a total, the aggregator never prints the
100% line: the loop never terminates. -/
theorem agg_no_totals_no_done (st : Nat × Nat) (hst : st.2 = 0)
    (iters : List (List Nat × List Nat)) (h : ∀ x ∈ iters, x.1 = []) :
    AggOut.done ∉ aggRun st iters := by
  induction iters generalizing st with
  | nil => simp [aggRun]
  | cons i rest ih =>
    obtain ⟨t, r⟩ := i
    have ht : t = [] := h (t, r) (by simp)
    subst ht
    simp only [aggRun, aggStep_no_total st hst r]
    simp only [List.mem_cons]
    rintro (hc | hc)
    · exact AggOut.noConfusion hc
    · rw [if_neg (by intro hx; exact AggOut.noConfusion hx)] at hc
      exact ih (st.1 + r.sum, 0) rfl (fun x hx => h x (List.mem_cons_of_mem _ hx)) hc

/-- The aggregator run prints done at most once: it is always the last
output. -/
theorem aggRun_done_once (st : Nat × Nat) (iters : List (List Nat × List Nat)) :
    (aggRun st iters).count AggOut.done ≤ 1 := by
  induction iters generalizing st with
  | nil => simp [aggRun]
  | cons i rest ih =>
    obtain ⟨t, r⟩ := i
    simp only [aggRun]
    by_cases h : (aggStep st t r).2 = .done
    · simp [h, List.count_cons]
    · have hb : ((aggStep st t r).2 == AggOut.done) = false := by
        simpa using h
      rw [if_neg h, List.count_cons, hb]
      simpa using ih (aggStep st t r).1

/-! ## Claims -/

/-- C1: the spec claims that a pattern with zero file arguments exits with
a usage message; the code only usage-exits when args.len() is below 2, so
a two-element argv (program name plus pattern) proceeds to run with an
empty file list, spawning the aggregator, which never terminates because
no total ever arrives. -/
theorem c1_pattern_without_files_not_rejected :
    mainDispatch ["rzstd", "err"] = .run "err" [] ∧
    (∀ iters : List (List Nat × List Nat), (∀ x ∈ iters, x.1 = []) →
        AggOut.done ∉ aggRun (0, 0) iters) := by
  refine ⟨by decide, ?_⟩
  intro iters h
  exact agg_no_totals_no_done (0, 0) rfl iters h

/-- C1 witness: the second part applied to a concrete schedule with one
total-free iteration. -/
theorem c1_pattern_without_files_not_rejected_witness :
    AggOut.done ∉ aggRun (0, 0) [([], [5])] :=
  c1_pattern_without_files_not_rejected.2 [([], [5])] (by decide)

/-- C8: the aggregator loop iteration terminates (prints the single 100%
line) exactly when the updated running total is nonzero and the updated
running bytes-read sum has reached it; if no total is ever received the
loop never terminates; and done is printed at most once per run. -/
theorem c8_aggregator_terminates_iff :
    (∀ (st : Nat × Nat) (t r : List Nat),
        (aggStep st t r).2 = AggOut.done ↔
          st.2 + t.sum ≠ 0 ∧ st.2 + t.sum ≤ st.1 + r.sum) ∧
    (∀ iters : List (List Nat × List Nat), (∀ x ∈ iters, x.1 = []) →
        AggOut.done ∉ aggRun (0, 0) iters) ∧
    (∀ (st : Nat × Nat) (iters : List (List Nat × List Nat)),
        (aggRun st iters).count AggOut.done ≤ 1) := by
  refine ⟨?_, ?_, ?_⟩
  · intro st t r
    simp only [aggStep]
    split_ifs with h1 h2
    · simp [h1]
    · simp [h1, h2]
    · simp [h1, h2]
  · intro iters h
    exact agg_no_totals_no_done (0, 0) rfl iters h
  · intro st iters
    exact aggRun_done_once st iters

/-- C8 witness: the iff applied at a concrete state and drain, and the
non-termination part applied to a concrete total-free schedule. -/
theorem c8_aggregator_terminates_iff_witness :
    (aggStep (0, 0) [10] [10]).2 = AggOut.done ∧
    AggOut.done ∉ aggRun (0, 0) [([], [7]), ([], [])] :=
  ⟨(c8_aggregator_terminates_iff.1 (0, 0) [10] [10]).mpr (by decide),
   c8_aggregator_terminates_iff.2.1 [([], [7]), ([], [])] (by decide)⟩

/-- C9 counterexample: at bytes_read 99999 of total 100000 the
intermediate branch fires (the termination check fails since
99999 < 100000), the exact percentage is 99.999, and the two-decimal
rendering printed by the {:.2} format rounds it to exactly 100.00 — so
the numeral 100 appears outside the final completion line, refuting the
claim. -/
theorem c9_counterexample :
    (aggStep (0, 0) [100000] [99999]).2 =
      AggOut.reportPercent 99999 100000 ∧
    displayedPercent 99999 100000 = 100 := by
  constructor
  · decide
  · have hx : percent 99999 100000 * 100 = 99999 / 10 := by
      simp only [percent]
      norm_num
    have hadd : (99999 : ℚ) / 10 + 1 / 2 = 50002 / 5 := by norm_num
    have hf : ⌊(50002 : ℚ) / 5⌋ = 10000 := by
      rw [Int.floor_eq_iff]
      constructor <;> norm_num
    simp only [displayedPercent, hx, round_eq, hadd, hf]
    norm_num

/-- C9 (amended): in the intermediate reporting branch the exact ratio
bytes_read/total*100 is strictly below 100 because the termination check
runs first, and the printed two-decimal rendering never exceeds 100.00 —
but it can round up to exactly 100.00 (bytes_read 99999 of 100000), so
strict inequality holds only for the exact value, not for the printed
numeral, and 100 is not confined to the final completion line. -/
theorem c9_intermediate_display_bound :
    ∀ (st : Nat × Nat) (t r : List Nat) (br total : Nat),
      (aggStep st t r).2 = AggOut.reportPercent br total →
      percent br total < 100 ∧ displayedPercent br total ≤ 100 := by
  intro st t r br total h
  simp only [aggStep] at h
  split_ifs at h with h1 h2
  have hco : st.1 + r.sum = br ∧ st.2 + t.sum = total := by
    simpa using h
  have hlt : br < total := by omega
  have htpos : (0 : ℚ) < (total : ℚ) := by
    have hp : 0 < total := by omega
    exact_mod_cast hp
  have hq : (br : ℚ) < (total : ℚ) := by exact_mod_cast hlt
  have hdiv : (br : ℚ) / (total : ℚ) < 1 := (div_lt_one htpos).mpr hq
  have hm : (br : ℚ) / (total : ℚ) * 100 < 1 * 100 :=
    mul_lt_mul_of_pos_right hdiv (by norm_num)
  have hper : percent br total < 100 := by simpa [percent] using hm
  refine ⟨hper, ?_⟩
  have hx : percent br total * 100 < 10000 := by
    have := mul_lt_mul_of_pos_right hper (by norm_num : (0 : ℚ) < 100)
    linarith
  have hround : round (percent br total * 100) ≤ 10000 := by
    rw [round_eq, Int.floor_le_iff]
    push_cast
    linarith
  simp only [displayedPercent]
  rw [div_le_iff₀ (by norm_num : (0 : ℚ) < 100)]
  have hcast : ((round (percent br total * 100) : ℤ) : ℚ) ≤
      ((10000 : ℤ) : ℚ) := by
    exact_mod_cast hround
  push_cast at hcast
  linarith

/-- C9 witness: the amended theorem applied at a concrete iteration
reporting 3 of 10 bytes. -/
theorem c9_intermediate_display_bound_witness :
    percent 3 10 < 100 ∧ displayedPercent 3 10 ≤ 100 :=
  c9_intermediate_display_bound (0, 0) [10] [3] 3 10 (by decide)

/-- totalsOf distributes over trace concatenation. -/
theorem totalsOf_append (a b : List Ev) :
    totalsOf (a ++ b) = totalsOf a ++ totalsOf b := by
  simp [totalsOf]

/-- Every event produced by progressEvents is a progressSent event. -/
theorem mem_progressEvents (acc : Nat) (rs : List Nat) :
    ∀ a ∈ progressEvents acc rs, ∃ n, a = Ev.progressSent n := by
  induction rs generalizing acc with
  | nil => simp [progressEvents]
  | cons n rest ih =>
    intro a ha
    rcases List.mem_cons.mp ha with ha | ha
    · exact ⟨acc + n, ha⟩
    · exact ih (acc + n) a ha

/-- The values a Progress reader publishes over any read sequence are all
at least the starting counter, and pairwise non-decreasing in order. -/
theorem runReads_pubs_mono (p : Progress) (rs : List (Except Unit Nat × Bool)) :
    (∀ x ∈ (Progress.runReads p rs).2, p.bytes_read ≤ x) ∧
    (Progress.runReads p rs).2.Pairwise (· ≤ ·) := by
  induction rs generalizing p with
  | nil => simp [Progress.runReads]
  | cons rb rest ih =>
    obtain ⟨r, b⟩ := rb
    cases r with
    | ok n =>
      have hstep := ih ⟨p.bytes_read + n⟩
      simp only [Progress.runReads, Progress.read, List.cons_append,
        List.nil_append]
      refine ⟨?_, ?_⟩
      · intro x hx
        rcases List.mem_cons.mp hx with hx | hx
        · omega
        · have := hstep.1 x hx
          simp at this
          omega
      · refine List.pairwise_cons.mpr ⟨?_, hstep.2⟩
        intro x hx
        have := hstep.1 x hx
        simpa using this
    | error e =>
      have hstep := ih p
      simpa only [Progress.runReads, Progress.read, List.nil_append]
        using hstep

/-- C5: reads through the Progress wrapper forward the inner result; the
counter starts at zero; a successful read of n bytes advances the counter
by exactly n and publishes the new cumulative value, whether or not the
publish succeeds; a failed read leaves the counter unchanged and
propagates the error; and the published values of one file are
monotonically non-decreasing. -/
theorem c5_progress_read_behavior :
    Progress.new.bytes_read = 0 ∧
    (∀ (p : Progress) (n : Nat) (b : Bool),
        p.read (.ok n) b =
          (⟨p.bytes_read + n⟩, [p.bytes_read + n], .ok n)) ∧
    (∀ (p : Progress) (r : Except Unit Nat), p.read r true = p.read r false) ∧
    (∀ (p : Progress) (b : Bool),
        p.read (.error ()) b = (p, [], .error ())) ∧
    (∀ (p : Progress) (rs : List (Except Unit Nat × Bool)),
        (Progress.runReads p rs).2.Pairwise (· ≤ ·)) := by
  refine ⟨rfl, fun p n b => rfl, fun p r => ?_, fun p b => rfl, ?_⟩
  · cases r <;> rfl
  · intro p rs
    exact (runReads_pubs_mono p rs).2

/-- C6: an empty (zero-length) file yields an empty trace (no total, no
progress), no output, and success; any non-empty openable file has its
total announced as the very first event, and no further total is ever
sent, so the announcement is unique and precedes all read progress. -/
theorem c6_empty_file_and_unique_total :
    (∀ (f : FileDesc) (env : RunEnv), f.openOk = true → f.len = 0 →
        process_file f env = ([], [], .ok ())) ∧
    (∀ (f : FileDesc) (env : RunEnv), f.openOk = true → 0 < f.len →
        ∃ rest, (process_file f env).1 = Ev.totalSent f.len :: rest ∧
          totalsOf rest = []) := by
  constructor
  · intro f env hopen hlen
    simp [process_file, hopen, hlen]
  · intro f env hopen hlen
    have hlz : ¬ f.len = 0 := Nat.pos_iff_ne_zero.mp hlen
    simp only [process_file, hopen, Bool.not_true, Bool.false_eq_true,
      if_false, if_neg hlz]
    split_ifs
    all_goals
      first
        | exact ⟨[], rfl, rfl⟩
        | exact ⟨[Ev.decoderCreated], rfl, rfl⟩
        | (refine ⟨[Ev.decoderCreated, Ev.regexCompiled] ++
             (progressEvents 0 env.reads ++ [Ev.searched]), rfl, ?_⟩
           rw [totalsOf_append, totalsOf_append, totalsOf_progressEvents]
           rfl)

/-- C6 witness: the empty-file part at a zero-length file and the
unique-total part at a four-byte file. -/
theorem c6_empty_file_and_unique_total_witness :
    process_file ⟨true, 0, false, false⟩ envA = ([], [], .ok ()) ∧
    ∃ rest, (process_file ⟨true, 4, false, false⟩ envA).1 =
        Ev.totalSent 4 :: rest ∧ totalsOf rest = [] :=
  ⟨c6_empty_file_and_unique_total.1 ⟨true, 0, false, false⟩ envA rfl rfl,
   c6_empty_file_and_unique_total.2 ⟨true, 4, false, false⟩ envA rfl (by decide)⟩

/-- The sink closure always tells the searcher to continue. -/
theorem sinkLine_flag (find : List Char → FindResult) (line : List Char) :
    (sinkLine find line).2 = .ok true := by
  simp only [sinkLine]
  rcases find line with e | o
  · rfl
  · rcases o with _ | ⟨s, e⟩ <;> rfl

/-- C7: a per-line match error makes the sink print nothing and report
continue, and no per-line result ever aborts the search: the driver always
reaches end-of-stream with Ok. -/
theorem c7_match_error_recovered :
    (∀ (find : List Char → FindResult) (line : List Char),
        find line = .error () → sinkLine find line = ([], .ok true)) ∧
    (∀ (find : List Char → FindResult) (lines : List (List Char)),
        (runSearch find lines).2 = .ok ()) := by
  constructor
  · intro find line h
    simp [sinkLine, h]
  · intro find lines
    induction lines with
    | nil => rfl
    | cons l rest ih =>
      have hflag := sinkLine_flag find l
      simp only [runSearch]
      rcases hs : sinkLine find l with ⟨out, flag⟩
      rw [hs] at hflag
      simp only at hflag
      subst hflag
      simpa using ih

/-- C7 witness: the error-recovery part applied to an always-failing
matcher on a concrete line. -/
theorem c7_match_error_recovered_witness :
    sinkLine findErr ([] : List Char) = ([], .ok true) :=
  c7_match_error_recovered.1 findErr [] rfl

/-- C3: the spec requires directory and symlink paths to fail with
InvalidInputError, with no contents read and the rejection preceding the
total announcement.  The code rejects directories only after announcing
the total, and never rejects symlinks at all: the is_symlink check at
main.rs 127 reads fstat metadata of the handle File::open produced by
following the link, so it is dead code, and a symlink to a non-empty
regular zstd file has its total announced and its contents decompressed
and searched to completion — shown here at a seven-byte symlinked file
(success, decoder constructed, read progress published) and a five-byte
directory (rejected, but with the total already announced). -/
theorem c3_symlink_processed_not_rejected :
    (process_file ⟨true, 7, false, true⟩ envA).2.2 = .ok () ∧
    Ev.decoderCreated ∈ (process_file ⟨true, 7, false, true⟩ envA).1 ∧
    Ev.progressSent 2 ∈ (process_file ⟨true, 7, false, true⟩ envA).1 ∧
    (process_file ⟨true, 5, true, false⟩ envA).2.2 =
      Except.error PfErr.dirError ∧
    Ev.totalSent 5 ∈ (process_file ⟨true, 5, true, false⟩ envA).1 :=
  ⟨rfl, by decide, by decide, rfl, by decide⟩

/-- C2 counterexample: an invalid pattern on a seven-byte regular file does
fail with the pattern error, but the trace already contains the decoder
construction, refuting failure before the decompressor is constructed. -/
theorem c2_counterexample :
    (process_file ⟨true, 7, false, false⟩ envNoRegex).2.2 =
      Except.error PfErr.patternError ∧
    Ev.decoderCreated ∈ (process_file ⟨true, 7, false, false⟩ envNoRegex).1 :=
  ⟨rfl, by decide⟩

/-- C2 (amended): for every invalid pattern on an openable non-empty
regular file whose decoder construction succeeds, the task fails with the
pattern error and no compressed byte is ever read (no read progress is
published, the search never runs, nothing is printed), although the
streaming decompressor has already been constructed. -/
theorem c2_pattern_error_before_any_read (f : FileDesc) (env : RunEnv)
    (hopen : f.openOk = true) (hlen : 0 < f.len) (hdir : f.isDir = false)
    (hdec : env.decoderOk = true) (hre : env.regexOk = false) :
    (process_file f env).2.2 = Except.error PfErr.patternError ∧
    (process_file f env).1 = [Ev.totalSent f.len, Ev.decoderCreated] ∧
    progressOf (process_file f env).1 = [] ∧
    Ev.searched ∉ (process_file f env).1 ∧
    (process_file f env).2.1 = [] := by
  have hlz : ¬ f.len = 0 := Nat.pos_iff_ne_zero.mp hlen
  simp [process_file, hopen, hlz, hdir, metadataIsSymlink, hdec, hre,
    progressOf]

/-- C2 witness: the amended theorem applied to a seven-byte regular file
with the failing-pattern environment. -/
theorem c2_pattern_error_before_any_read_witness :
    (process_file ⟨true, 7, false, false⟩ envNoRegex).2.2 =
      Except.error PfErr.patternError ∧
    (process_file ⟨true, 7, false, false⟩ envNoRegex).1 =
      [Ev.totalSent 7, Ev.decoderCreated] ∧
    progressOf (process_file ⟨true, 7, false, false⟩ envNoRegex).1 = [] ∧
    Ev.searched ∉ (process_file ⟨true, 7, false, false⟩ envNoRegex).1 ∧
    (process_file ⟨true, 7, false, false⟩ envNoRegex).2.1 = [] :=
  c2_pattern_error_before_any_read ⟨true, 7, false, false⟩ envNoRegex rfl
    (by decide) rfl rfl rfl

/-- C10: whenever process_file fails with any error other than the open
failure (directory, symlink, decoder, pattern or search error — all of
which occur after the announcement), the trace still carries exactly the
one announced total, which is never followed by a compensating update; and
the aggregator's running total sum never decreases, so the announced size
stays in the aggregate total forever. -/
theorem c10_total_never_retracted :
    (∀ (f : FileDesc) (env : RunEnv) (e : PfErr),
        (process_file f env).2.2 = .error e → e ≠ PfErr.openError →
        totalsOf (process_file f env).1 = [f.len]) ∧
    (∀ (st : Nat × Nat) (t r : List Nat), st.2 ≤ ((aggStep st t r).1).2) := by
  constructor
  · intro f env e herr hne
    simp only [process_file] at herr ⊢
    split_ifs at herr ⊢
    all_goals simp only [Except.error.injEq] at herr ⊢
    all_goals
      first
        | (exact absurd herr.symm hne)
        | (exact Except.noConfusion herr)
        | rfl
        | (rw [totalsOf_append, totalsOf_append, totalsOf_append,
             totalsOf_progressEvents]
           rfl)
  · exact aggStep_total_mono

/-- C10 witness: the no-retraction part applied to a five-byte directory,
whose task fails after announcing 5. -/
theorem c10_total_never_retracted_witness :
    totalsOf (process_file ⟨true, 5, true, false⟩ envA).1 = [5] :=
  c10_total_never_retracted.1 ⟨true, 5, true, false⟩ envA PfErr.dirError
    rfl (by decide)

/-- A list is a prefix of itself followed by anything. -/
theorem isPrefixOf_append_self (p s : List Char) :
    p.isPrefixOf (p ++ s) = true := by
  induction p with
  | nil => simp
  | cons a p ih => simp [List.isPrefixOf_cons₂, ih]

/-- A non-empty list is not a prefix of the empty list. -/
theorem isPrefixOf_nil_eq_false (m : List Char) (h : m ≠ []) :
    m.isPrefixOf ([] : List Char) = false := by
  cases m with
  | nil => exact absurd rfl h
  | cons a m => rfl

/-- str::replace with a nonempty pattern leaves a string free of the
pattern unchanged. -/
theorem replaceAll_no_occurrence (pat repl s : List Char) (hne : pat ≠ [])
    (h : ∀ i, pat.isPrefixOf (s.drop i) = false) :
    replaceAll pat repl s = s := by
  have hie : pat.isEmpty = false := by
    simpa [List.isEmpty_iff] using hne
  induction s with
  | nil => simp [replaceAll, hie]
  | cons c rest ih =>
    have h0 : pat.isPrefixOf (c :: rest) = false := by simpa using h 0
    rw [replaceAll, if_neg (by simp [hie]), if_neg (by simp [h0])]
    have ht : replaceAll pat repl rest = rest :=
      ih (fun i => by simpa using h (i + 1))
    rw [ht]

/-- If the only occurrence of the nonempty pattern in pre ++ (pat ++ suf)
is the explicit middle one (no occurrence starts inside pre, none inside
suf), str::replace rewrites exactly that occurrence. -/
theorem replaceAll_single_occurrence (pat repl pre suf : List Char)
    (hne : pat ≠ [])
    (hsuf : ∀ i, pat.isPrefixOf (suf.drop i) = false)
    (hpre : ∀ i < pre.length,
        pat.isPrefixOf ((pre ++ (pat ++ suf)).drop i) = false) :
    replaceAll pat repl (pre ++ (pat ++ suf)) = pre ++ (repl ++ suf) := by
  revert hpre
  induction pre with
  | nil =>
    intro _
    simp only [List.nil_append]
    cases pat with
    | nil => exact absurd rfl hne
    | cons p pat =>
      have hp : (p :: pat).isPrefixOf (p :: (pat ++ suf)) = true :=
        isPrefixOf_append_self (p :: pat) suf
      rw [List.cons_append, replaceAll, if_neg (by simp), if_pos hp]
      rw [List.length_cons, List.drop_succ_cons, List.drop_left]
      rw [replaceAll_no_occurrence (p :: pat) repl suf hne hsuf]
  | cons c pre ih =>
    intro hpre
    have hie : pat.isEmpty = false := by
      simpa [List.isEmpty_iff] using hne
    have h0 : pat.isPrefixOf (c :: (pre ++ (pat ++ suf))) = false := by
      have hx := hpre 0 (by simp)
      simpa using hx
    have h0n : ¬ (pat.isPrefixOf (c :: (pre ++ (pat ++ suf))) = true) := by
      rw [h0]
      exact Bool.false_ne_true
    rw [List.cons_append, replaceAll, if_neg (by simp [hie]), if_neg h0n]
    have ht := ih (fun i hi => by
      have hx := hpre (i + 1) (by simpa using Nat.succ_lt_succ hi)
      simpa using hx)
    rw [ht, List.cons_append]

/-- The matched text of the span covering the middle block. -/
theorem spanSlice_append (pre m suf : List Char) :
    spanSlice (pre ++ (m ++ suf)) pre.length (pre.length + m.length) = m := by
  simp [spanSlice, List.drop_left, List.take_left]

/-- The spec's splice form on the middle block: pre, highlighted m, suf. -/
theorem spliceHighlight_append (pre m suf : List Char) :
    spliceHighlight (pre ++ (m ++ suf)) pre.length (pre.length + m.length) =
      pre ++ (hlWrap m ++ suf) := by
  simp only [spliceHighlight, spanSlice_append]
  rw [List.take_left]
  have hd : List.drop (pre.length + m.length) (pre ++ (m ++ suf)) = suf := by
    rw [← List.append_assoc]
    exact List.drop_left' (by simp)
  rw [hd, List.append_assoc]

/-- C4 counterexample: on the line abab the matcher reports the span
(0, 2); the emitted line highlights both occurrences of the matched text
ab, so bytes outside the matched span change, refuting markers around
exactly the one span with everything else unchanged. -/
theorem c4_counterexample :
    (sinkLine findSpan02 "abab".toList).1 ≠
      [spliceHighlight "abab".toList 0 2] := by
  have e1 : (sinkLine findSpan02 "abab".toList).1 =
      [replaceAll "ab".toList (hlWrap "ab".toList) "abab".toList] := by
    simp only [sinkLine, findSpan02]
    rw [show spanSlice "abab".toList 0 2 = "ab".toList from by decide]
  have e2 : replaceAll "ab".toList (hlWrap "ab".toList) "abab".toList =
      hlWrap "ab".toList ++ (hlWrap "ab".toList ++ []) := by
    rw [show ("abab".toList : List Char) =
      'a' :: 'b' :: 'a' :: 'b' :: [] from by decide]
    rw [replaceAll, if_neg (by decide), if_pos (by decide)]
    rw [show (('a' :: 'b' :: 'a' :: 'b' :: []).drop ("ab".toList).length) =
      'a' :: 'b' :: [] from by decide]
    rw [replaceAll, if_neg (by decide), if_pos (by decide)]
    rw [show (('a' :: 'b' :: []).drop ("ab".toList).length) =
      ([] : List Char) from by decide]
    rw [replaceAll, if_neg (by decide)]
  rw [e1, e2]
  decide

/-- C4 (amended): when the matcher finds a span, the emitted line is the
input line with every left-to-right occurrence of the matched text
replaced by its highlighted rendering (str::replace semantics), written
immediately with the continue signal; in the special case where the
matched text occurs nowhere else in the line, this coincides with the
spec's splice around exactly the one span. -/
theorem c4_highlight_replaces_all_occurrences :
    (∀ (find : List Char → FindResult) (line : List Char) (s e : Nat),
        find line = .ok (some (s, e)) →
        sinkLine find line =
          ([replaceAll (spanSlice line s e) (hlWrap (spanSlice line s e))
              line], .ok true)) ∧
    (∀ (find : List Char → FindResult) (pre m suf : List Char),
        m ≠ [] →
        find (pre ++ (m ++ suf)) =
          .ok (some (pre.length, pre.length + m.length)) →
        (∀ i < pre.length,
            m.isPrefixOf ((pre ++ (m ++ suf)).drop i) = false) →
        (∀ i < suf.length, m.isPrefixOf (suf.drop i) = false) →
        (sinkLine find (pre ++ (m ++ suf))).1 =
          [spliceHighlight (pre ++ (m ++ suf)) pre.length
            (pre.length + m.length)]) := by
  constructor
  · intro find line s e h
    simp [sinkLine, h]
  · intro find pre m suf hm hfind hpre hsuf
    have hsuf2 : ∀ i, m.isPrefixOf (suf.drop i) = false := by
      intro i
      by_cases hi : i < suf.length
      · exact hsuf i hi
      · rw [List.drop_eq_nil_of_le (by omega)]
        exact isPrefixOf_nil_eq_false m hm
    simp only [sinkLine, hfind]
    rw [spanSlice_append, spliceHighlight_append]
    rw [replaceAll_single_occurrence m (hlWrap m) pre suf hm hsuf2 hpre]

/-- C4 witness: the unique-occurrence part applied to the line xaby with
matched text ab at span (1, 3). -/
theorem c4_highlight_replaces_all_occurrences_witness :
    (sinkLine findSpan13 ("x".toList ++ ("ab".toList ++ "y".toList))).1 =
      [spliceHighlight ("x".toList ++ ("ab".toList ++ "y".toList))
        ("x".toList).length (("x".toList).length + ("ab".toList).length)] :=
  c4_highlight_replaces_all_occurrences.2 findSpan13 "x".toList "ab".toList
    "y".toList (by decide) rfl (by decide) (by decide)

end Rzstd
